import Mathlib

/-!
Shallow embedding of the core of `section_practice.py` (repetition-practice
tracker): the tempo-suggestion engine (`PracticeTracker._compute_suggestion`),
the beep-metronome scheduler (`BeepMetronome`), and the practice-session
controller (`start_session` / `add_rep` / `add_success` / `reset_counts` /
`cancel_session` / `finish_and_save`).

Modelling conventions:
- Machine integers of the Python code are `Int` (Python ints are unbounded).
- Wall-clock instants (`time.perf_counter()`, `time.time()`) and success
  ratios (Python floats) are `ℚ`; the float comparison
  `succ / reps >= 0.90` is modelled as the exact rational comparison.
- CSV rows are modelled post-parsing: a `SessionRow` carries the integer
  values that `safe_int` extracts.  Free-text fields (`song_name`, `note`,
  `session_id`) are opaque integer codes.  `timestamp_start` is the result
  of `parse_timestamp`: `Option Int` (`Option.none` = unparseable string,
  `some t` = a timestamp, where the `Int` order embeds the datetime order).
- The `details` string of the suggestion dict is modelled structurally:
  the bottleneck-bar list, gap-bar list, fallback ratio and timestamp that
  the string reports (the string truncates the bar lists at 10 for display
  only; the lists here are the untruncated ones the code computes).
-/

namespace SectionPractice

/-- One row of `sessions.csv`, post-parsing (see module conventions). -/
structure SessionRow where
  session_id : Int
  timestamp_start : Option Int
  timestamp_end : Int
  duration_sec : ℚ
  song_index : Int
  song_name : Int
  bar_start : Int
  bar_end : Int
  bpm : Int
  reps : Int
  success : Int
  note : Int
deriving DecidableEq, Repr

/-- `overlap(a1, a2, b1, b2)` from the source: `max(a1, b1) <= min(a2, b2)`. -/
def overlap (a1 a2 b1 b2 : Int) : Bool :=
  decide (max a1 b1 ≤ min a2 b2)

/-- `SUCCESS_THRESHOLD = 0.90`. -/
def SUCCESS_RATE : ℚ := 9 / 10

/-- Result kind of `_compute_suggestion`. -/
inductive SuggKind where
  | nothing
  | achieved
  | latest
deriving DecidableEq, Repr

/-- The suggestion dict: `kind`, `suggested_bpm_value`, and the structured
content of `details` (bottleneck bars, gap bars, fallback accuracy and
timestamp). -/
structure Suggestion where
  kind : SuggKind
  suggested_bpm_value : Option Int
  bottlenecks : List Int
  missing : List Int
  latest_acc : Option ℚ
  latest_ts : Option Int
deriving DecidableEq, Repr

/-- Integer range `[a, b]` as a list, mirroring `range(t_start, t_end + 1)`. -/
def intRange (a b : Int) : List Int :=
  (List.range (b + 1 - a).toNat).map (fun i : Nat => a + (i : Int))

/-- Minimum of a list of integers (`Option.none` on the empty list). -/
def minList : List Int → Option Int
  | [] => Option.none
  | x :: xs =>
    match minList xs with
    | Option.none => some x
    | some m => some (min x m)

/-- Maximum of a list of integers (`Option.none` on the empty list). -/
def maxList : List Int → Option Int
  | [] => Option.none
  | x :: xs =>
    match maxList xs with
    | Option.none => some x
    | some m => some (max x m)

/-- The per-record test inside the per-bar loop of `_compute_suggestion`:
the record covers `bar` after normalisation (`bs <= bar <= be`), has
`reps > 0`, `bpm > 0`, and accuracy `success / reps >= SUCCESS_THRESHOLD`. -/
def achievesBar (bar : Int) (r : SessionRow) : Bool :=
  decide (min r.bar_start r.bar_end ≤ bar) &&
  decide (bar ≤ max r.bar_start r.bar_end) &&
  decide (0 < r.reps) &&
  decide (0 < r.bpm) &&
  decide (SUCCESS_RATE ≤ (r.success : ℚ) / (r.reps : ℚ))

/-- The inner loop computing `best_min_bpm` for one bar: fold over the
overlapping rows, keeping the least bpm among records achieving the bar. -/
def bestMinBpm (rows : List SessionRow) (bar : Int) : Option Int :=
  rows.foldl
    (fun best r =>
      if achievesBar bar r then
        match best with
        | Option.none => some r.bpm
        | some m => if r.bpm < m then some r.bpm else some m
      else best)
    Option.none

/-- The loop choosing the fallback record inside the latest group:
skip records with `bpm <= 0`, otherwise keep the one with the least bpm
(first record wins ties, as in the strict `<` of the source). -/
def chooseLowestBpm (l : List SessionRow) : Option SessionRow :=
  l.foldl
    (fun c r =>
      if r.bpm ≤ 0 then c
      else
        match c with
        | Option.none => some r
        | some cr => if r.bpm < cr.bpm then some r else some cr)
    Option.none

/-- The row filter at the top of `_compute_suggestion`: rows of the given
song whose normalised `[bar_start, bar_end]` interval overlaps
`[t_start, t_end]`. -/
def overlappingRows (sessions : List SessionRow) (song t_start t_end : Int) :
    List SessionRow :=
  sessions.filter (fun r =>
    (r.song_index == song) &&
    overlap t_start t_end (min r.bar_start r.bar_end) (max r.bar_start r.bar_end))

/-- The `achieved_per_bar` dict of `_compute_suggestion`, as the list of
`(bar, minimum achieving bpm)` pairs in bar order. -/
def achievedPairs (sessions : List SessionRow) (song t_start t_end : Int) :
    List (Int × Int) :=
  (intRange t_start t_end).filterMap (fun bar =>
    (bestMinBpm (overlappingRows sessions song t_start t_end) bar).map
      (fun v => (bar, v)))

/-- The `parsed` list of the fallback branch: `(parsed timestamp, row)`
pairs; rows with an unparseable `timestamp_start` are dropped, and when
every row is dropped all rows are reinstated with the shared sentinel
`datetime.min` (the sentinel value is irrelevant: all rows then tie). -/
def latestParsed (sessions : List SessionRow) (song t_start t_end : Int) :
    List (Int × SessionRow) :=
  let rows := overlappingRows sessions song t_start t_end
  let parsed := rows.filterMap (fun r =>
    r.timestamp_start.map (fun ts => (ts, r)))
  if parsed.isEmpty then rows.map (fun r => ((0 : Int), r)) else parsed

/-- The `latest_group` of the fallback branch: the rows whose parsed
timestamp attains the maximum. -/
def latestGroup (sessions : List SessionRow) (song t_start t_end : Int) :
    List SessionRow :=
  ((latestParsed sessions song t_start t_end).filter (fun p =>
    some p.1 == maxList ((latestParsed sessions song t_start t_end).map Prod.fst))).map
    Prod.snd

/-- `PracticeTracker._compute_suggestion(song_index, t_start, t_end)`. -/
def computeSuggestion (sessions : List SessionRow) (song t_start t_end : Int) :
    Suggestion :=
  let rows := overlappingRows sessions song t_start t_end
  if rows.isEmpty then
    { kind := SuggKind.nothing
      suggested_bpm_value := Option.none
      bottlenecks := []
      missing := []
      latest_acc := Option.none
      latest_ts := Option.none }
  else
    let achieved := achievedPairs sessions song t_start t_end
    if achieved.isEmpty then
      -- no bar reached 90%: fall back to the most recent record
      match chooseLowestBpm (latestGroup sessions song t_start t_end) with
      | Option.none =>
          { kind := SuggKind.latest
            suggested_bpm_value := Option.none
            bottlenecks := []
            missing := []
            latest_acc := Option.none
            latest_ts := Option.none }
      | some ch =>
          let acc : ℚ := if 0 < ch.reps then (ch.success : ℚ) / (ch.reps : ℚ) else 0
          { kind := SuggKind.latest
            suggested_bpm_value := some ch.bpm
            bottlenecks := []
            missing := []
            latest_acc := some acc
            latest_ts := ch.timestamp_start }
    else
      let smin := minList (achieved.map Prod.snd)
      { kind := SuggKind.achieved
        suggested_bpm_value := smin
        bottlenecks := (achieved.filter (fun p => some p.2 == smin)).map Prod.fst
        missing := (intRange t_start t_end).filter
          (fun bar => (bestMinBpm rows bar).isNone)
        latest_acc := Option.none
        latest_ts := Option.none }

/-! ### BeepMetronome

The shared state of `BeepMetronome` (`self.bpm`, `self.beats_per_bar`,
whether the cadence thread is alive, and the `threading.Event` stop flag).
The audio constants (`freq_accent`, `freq_normal`, `beep_ms`) play no role
in any claim and are omitted. -/

structure MetroState where
  bpm : Int
  beats_per_bar : Int
  running : Bool
  stopRequested : Bool
deriving DecidableEq, Repr

/-- `BeepMetronome.__init__` (bpm 120, 4 beats per bar, thread not started). -/
def metroInit : MetroState :=
  { bpm := 120, beats_per_bar := 4, running := false, stopRequested := false }

/-- `BeepMetronome.update`: clamp and store the parameters (under the lock). -/
def metroUpdate (s : MetroState) (bpm beats : Int) : MetroState :=
  { s with
    bpm := max 1 (min 400 bpm)
    beats_per_bar := max 1 (min 32 beats) }

/-- `BeepMetronome.start`: apply `update`, return if already running,
otherwise clear the stop flag and launch the cadence thread. -/
def metroStart (s : MetroState) (bpm beats : Int) : MetroState :=
  let s1 := metroUpdate s bpm beats
  if s1.running then s1
  else { s1 with stopRequested := false, running := true }

/-- `BeepMetronome.stop`: set the stop event. -/
def metroStop (s : MetroState) : MetroState :=
  { s with stopRequested := true }

/-! ### The cadence loop `BeepMetronome._run`

The loop keeps a beat counter and an absolute deadline `next_t`
(initialised to `time.perf_counter()`).  Each iteration reads the clamped
parameters under the lock, then either sleeps (when `now < next_t`) or
beeps, advances the beat counter, and adds exactly one beat interval to
the previous deadline.  The environment (OS scheduling) is modelled by
the sequence of `now` samples handed to the iterations; the cooperative
stop flag is modelled by a boolean schedule over iteration indices. -/

structure LoopState where
  beat : Int
  next_t : ℚ
deriving DecidableEq, Repr

/-- `interval = 60.0 / max(1, bpm)`. -/
def beatInterval (bpm : Int) : ℚ :=
  60 / ((max 1 bpm : Int) : ℚ)

/-- One iteration of the `while` body, given the sampled clock value `now`:
returns the new state and whether a beat fired. -/
def loopIter (bpm beats : Int) (now : ℚ) (s : LoopState) : LoopState × Bool :=
  if now < s.next_t then (s, false)
  else
    ({ beat := (s.beat + 1) % beats, next_t := s.next_t + beatInterval bpm },
     true)

/-- Run the loop over a list of clock samples (fixed parameters, stop flag
never set): final state and the number of beats fired. -/
def loopRun (bpm beats : Int) (nows : List ℚ) (s : LoopState) :
    LoopState × Nat :=
  match nows with
  | [] => (s, 0)
  | now :: rest =>
    let step := loopIter bpm beats now s
    let tail := loopRun bpm beats rest step.1
    (tail.1, (if step.2 then 1 else 0) + tail.2)

/-- Run the loop with a stop-flag schedule (`stopFlag i` = the value the
`while not self._stop.is_set()` check reads at iteration `i`); returns the
indices of the iterations whose beat fired.  As in the source, the flag is
checked at the head of each iteration and the loop exits when it is set. -/
def loopRunStop (bpm beats : Int) (stopFlag : Nat → Bool) :
    Nat → List ℚ → LoopState → List Nat
  | _, [], _ => []
  | i, now :: rest, s =>
    if stopFlag i then []
    else
      let step := loopIter bpm beats now s
      (if step.2 then [i] else []) ++
        loopRunStop bpm beats stopFlag (i + 1) rest step.1

/-! ### PracticeTracker session state and operations

The fields of `PracticeTracker` that the session operations touch.
`Option.none` models the Python `None` of an idle session.  The metronome
is modelled separately by `MetroState`; the UI labels are omitted. -/

structure TrackerState where
  active : Bool
  session_id : Option Int
  t_start_iso : Option Int
  t_start_epoch : Option ℚ
  reps : Int
  success : Int
  locked_bar_start : Option Int
  locked_bar_end : Option Int
  locked_bpm : Option Int
  selected_song_index : Option Int
  selected_song_name : Int
  note : Int
deriving DecidableEq, Repr

/-- The idle runtime state established in `__init__`, `cancel_session` and
the tail of `finish_and_save`. -/
def idleReset (s : TrackerState) : TrackerState :=
  { s with
    active := false
    session_id := Option.none
    t_start_iso := Option.none
    t_start_epoch := Option.none
    locked_bar_start := Option.none
    locked_bar_end := Option.none
    locked_bpm := Option.none
    reps := 0
    success := 0 }

/-- `round(duration, 3)` (Python rounds half-to-even; the difference only
shows at exact half-millisecond ties, which no claim touches). -/
def roundTo3 (q : ℚ) : ℚ :=
  ((⌊q * 1000 + 1 / 2⌋ : Int) : ℚ) / 1000

/-- `PracticeTracker.start_session`, with `_validate_before_start` inlined:
on any validation failure an error dialog is shown and nothing mutates.
`sid`/`nowIso`/`nowEpoch` stand for `new_session_id()` / `now_iso()` /
`time.time()`. -/
def startSession (sid nowIso : Int) (nowEpoch : ℚ) (bar1 bar2 bpm : Int)
    (s : TrackerState) : TrackerState :=
  if s.active then s
  else if s.selected_song_index.isNone then s
  else if bar1 ≤ 0 ∨ bar2 ≤ 0 then s
  else if bar1 > bar2 then s
  else if bpm ≤ 0 ∨ bpm > 400 then s
  else
    { s with
      active := true
      session_id := some sid
      t_start_iso := some nowIso
      t_start_epoch := some nowEpoch
      locked_bar_start := some bar1
      locked_bar_end := some bar2
      locked_bpm := some bpm
      reps := 0
      success := 0 }

/-- `PracticeTracker.add_rep`. -/
def addRep (delta : Int) (s : TrackerState) : TrackerState :=
  if ¬ s.active then s
  else
    let reps := max 0 (s.reps + delta)
    let success := if s.success > reps then reps else s.success
    { s with reps := reps, success := success }

/-- `PracticeTracker.add_success`. -/
def addSuccess (delta : Int) (s : TrackerState) : TrackerState :=
  if ¬ s.active then s
  else
    let success0 := max 0 (s.success + delta)
    let success := if success0 > s.reps then s.reps else success0
    { s with success := success }

/-- `PracticeTracker.reset_counts`. -/
def resetCounts (s : TrackerState) : TrackerState :=
  if ¬ s.active then s
  else { s with reps := 0, success := 0 }

/-- `PracticeTracker.cancel_session`, with the persisted log made explicit:
cancelling never appends to it. -/
def cancelSession (s : TrackerState) (log : List SessionRow) :
    TrackerState × List SessionRow :=
  if ¬ s.active then (s, log)
  else (idleReset s, log)

/-- The outcome of `finish_and_save`: early return when idle, the
zero-reps error dialog, the propagated append exception (carrying the row
the call had computed), or a successful save. -/
inductive FinishOutcome where
  | notActive
  | invalidState
  | persistFailed (computed : SessionRow)
  | saved (r : SessionRow)
deriving DecidableEq, Repr

/-- `PracticeTracker.finish_and_save`.  `appendOk` models whether
`append_csv` succeeds; when it raises, the exception propagates before the
state reset, so only the `success` clamp has happened. -/
def finishAndSave (nowIso : Int) (nowEpoch : ℚ) (appendOk : Bool)
    (s : TrackerState) (log : List SessionRow) :
    FinishOutcome × TrackerState × List SessionRow :=
  if ¬ s.active then (FinishOutcome.notActive, s, log)
  else if s.reps ≤ 0 then (FinishOutcome.invalidState, s, log)
  else
    let s1 := { s with success := min s.success s.reps }
    let row : SessionRow :=
      { session_id := s1.session_id.getD 0
        timestamp_start := s1.t_start_iso
        timestamp_end := nowIso
        duration_sec := roundTo3 (nowEpoch - s1.t_start_epoch.getD 0)
        song_index := s1.selected_song_index.getD 0
        song_name := s1.selected_song_name
        bar_start := s1.locked_bar_start.getD 0
        bar_end := s1.locked_bar_end.getD 0
        bpm := s1.locked_bpm.getD 0
        reps := s1.reps
        success := s1.success
        note := s1.note }
    if appendOk then (FinishOutcome.saved row, idleReset s1, log ++ [row])
    else (FinishOutcome.persistFailed row, s1, log)

/-- One UI-level operation on the tracker, for reasoning about arbitrary
operation sequences. -/
inductive TrackerOp where
  | startOp (sid nowIso : Int) (nowEpoch : ℚ) (bar1 bar2 bpm : Int)
  | repOp (delta : Int)
  | succOp (delta : Int)
  | resetOp
  | cancelOp
  | finishOp (nowIso : Int) (nowEpoch : ℚ) (appendOk : Bool)

/-- Apply one operation to the tracker state and the persisted log. -/
def trackerStep (op : TrackerOp) (st : TrackerState × List SessionRow) :
    TrackerState × List SessionRow :=
  match op with
  | TrackerOp.startOp sid ni ne b1 b2 bpm =>
      (startSession sid ni ne b1 b2 bpm st.1, st.2)
  | TrackerOp.repOp d => (addRep d st.1, st.2)
  | TrackerOp.succOp d => (addSuccess d st.1, st.2)
  | TrackerOp.resetOp => (resetCounts st.1, st.2)
  | TrackerOp.cancelOp => cancelSession st.1 st.2
  | TrackerOp.finishOp ni ne ok => (finishAndSave ni ne ok st.1 st.2).2

/-- Apply a sequence of operations. -/
def runOps (ops : List TrackerOp) (st : TrackerState × List SessionRow) :
    TrackerState × List SessionRow :=
  ops.foldl (fun acc op => trackerStep op acc) st

/-! ### Helper lemmas about list minima and maxima -/

theorem minList_eq_none {l : List Int} : minList l = Option.none ↔ l = [] := by
  cases l with
  | nil => simp [minList]
  | cons x xs =>
    simp only [minList]
    cases h : minList xs <;> simp

theorem minList_mem_le {l : List Int} {m : Int} (h : minList l = some m) :
    m ∈ l ∧ ∀ x ∈ l, m ≤ x := by
  induction l generalizing m with
  | nil => simp [minList] at h
  | cons x xs ih =>
    simp only [minList] at h
    cases hx : minList xs with
    | none =>
      rw [hx] at h
      cases h
      have hnil := minList_eq_none.mp hx
      subst hnil
      simp
    | some k =>
      rw [hx] at h
      cases h
      obtain ⟨hk1, hk2⟩ := ih hx
      constructor
      · rcases le_total x k with hc | hc
        · rw [min_eq_left hc]; exact List.mem_cons_self x xs
        · rw [min_eq_right hc]; exact List.mem_cons_of_mem x hk1
      · intro y hy
        rcases List.mem_cons.mp hy with rfl | hy
        · exact min_le_left _ _
        · exact le_trans (min_le_right _ _) (hk2 y hy)

theorem maxList_eq_none {l : List Int} : maxList l = Option.none ↔ l = [] := by
  cases l with
  | nil => simp [maxList]
  | cons x xs =>
    simp only [maxList]
    cases h : maxList xs <;> simp

theorem maxList_mem_ge {l : List Int} {m : Int} (h : maxList l = some m) :
    m ∈ l ∧ ∀ x ∈ l, x ≤ m := by
  induction l generalizing m with
  | nil => simp [maxList] at h
  | cons x xs ih =>
    simp only [maxList] at h
    cases hx : maxList xs with
    | none =>
      rw [hx] at h
      cases h
      have hnil := maxList_eq_none.mp hx
      subst hnil
      simp
    | some k =>
      rw [hx] at h
      cases h
      obtain ⟨hk1, hk2⟩ := ih hx
      constructor
      · rcases le_total x k with hc | hc
        · rw [max_eq_right hc]; exact List.mem_cons_of_mem x hk1
        · rw [max_eq_left hc]; exact List.mem_cons_self x xs
      · intro y hy
        rcases List.mem_cons.mp hy with rfl | hy
        · exact le_max_left _ _
        · exact le_trans (hk2 y hy) (le_max_right _ _)

theorem mem_intRange {a b n : Int} : n ∈ intRange a b ↔ a ≤ n ∧ n ≤ b := by
  simp only [intRange, List.mem_map, List.mem_range]
  constructor
  · rintro ⟨i, hi, rfl⟩
    omega
  · rintro ⟨h1, h2⟩
    exact ⟨(n - a).toNat, by omega, by omega⟩

/-! ### The per-bar fold computes the minimum of the achieving bpms -/

/-- Merge of two optional minima. -/
def mergeMin (o1 o2 : Option Int) : Option Int :=
  match o1, o2 with
  | Option.none, o => o
  | some m, Option.none => some m
  | some m, some k => some (min m k)

theorem mergeMin_none_right (o : Option Int) : mergeMin o Option.none = o := by
  cases o <;> rfl

theorem mergeMin_none_left (o : Option Int) : mergeMin Option.none o = o := rfl

/-- The step function of the `bestMinBpm` fold, named for reasoning. -/
def minStep (bar : Int) (best : Option Int) (r : SessionRow) : Option Int :=
  if achievesBar bar r then
    match best with
    | Option.none => some r.bpm
    | some m => if r.bpm < m then some r.bpm else some m
  else best

theorem bestMinBpm_def (rows : List SessionRow) (bar : Int) :
    bestMinBpm rows bar = rows.foldl (minStep bar) Option.none := rfl

theorem minStep_foldl_aux (bar : Int) (rows : List SessionRow) :
    ∀ acc : Option Int,
      rows.foldl (minStep bar) acc =
        mergeMin acc (rows.foldl (minStep bar) Option.none) := by
  induction rows with
  | nil =>
    intro acc
    simp [mergeMin_none_right]
  | cons r rest ih =>
    intro acc
    rw [List.foldl_cons, List.foldl_cons, ih (minStep bar acc r),
      ih (minStep bar Option.none r)]
    by_cases hach : achievesBar bar r
    · cases acc with
      | none => rfl
      | some m =>
        simp only [minStep, hach, if_true]
        cases rest.foldl (minStep bar) Option.none with
        | none =>
          split <;> simp only [mergeMin] <;> congr 1 <;> omega
        | some k =>
          split <;> simp only [mergeMin] <;> congr 1 <;> omega
    · simp [minStep, hach, mergeMin_none_left]

theorem bestMinBpm_eq_minList (bar : Int) (rows : List SessionRow) :
    bestMinBpm rows bar =
      minList ((rows.filter (fun r => achievesBar bar r)).map (fun r => r.bpm)) := by
  induction rows with
  | nil => rfl
  | cons r rest ih =>
    rw [bestMinBpm_def, List.foldl_cons, minStep_foldl_aux, ← bestMinBpm_def, ih]
    by_cases hach : achievesBar bar r
    · rw [List.filter_cons_of_pos hach, List.map_cons]
      simp only [minStep, hach, if_true, minList]
      cases minList ((rest.filter (fun q => achievesBar bar q)).map (fun q => q.bpm)) with
      | none => rfl
      | some k => simp [mergeMin, min_comm]
    · rw [List.filter_cons_of_neg hach]
      simp [minStep, hach, mergeMin]

/-! ### The fallback chooser picks a member with the least bpm -/

/-- The step function of the `chooseLowestBpm` fold, named for reasoning. -/
def chooseStep (c : Option SessionRow) (r : SessionRow) : Option SessionRow :=
  if r.bpm ≤ 0 then c
  else
    match c with
    | Option.none => some r
    | some cr => if r.bpm < cr.bpm then some r else some cr

theorem chooseLowestBpm_def (l : List SessionRow) :
    chooseLowestBpm l = l.foldl chooseStep Option.none := rfl

theorem chooseStep_foldl_aux :
    ∀ (l : List SessionRow), (∀ r ∈ l, 0 < r.bpm) →
    ∀ c : SessionRow, ∃ ch, l.foldl chooseStep (some c) = some ch ∧
      (ch = c ∨ ch ∈ l) ∧ ch.bpm ≤ c.bpm ∧ ∀ r ∈ l, ch.bpm ≤ r.bpm := by
  intro l
  induction l with
  | nil =>
    intro _ c
    exact ⟨c, rfl, Or.inl rfl, le_refl _, by simp⟩
  | cons r rest ih =>
    intro hpos c
    have hr : 0 < r.bpm := hpos r (List.mem_cons_self r rest)
    have hrest : ∀ q ∈ rest, 0 < q.bpm :=
      fun q hq => hpos q (List.mem_cons_of_mem r hq)
    rw [List.foldl_cons]
    have hstep : chooseStep (some c) r =
        if r.bpm < c.bpm then some r else some c := by
      unfold chooseStep
      rw [if_neg (by omega)]
    by_cases hlt : r.bpm < c.bpm
    · obtain ⟨ch, h1, h2, h3, h4⟩ := ih hrest r
      refine ⟨ch, ?_, ?_, ?_, ?_⟩
      · rw [hstep, if_pos hlt]; exact h1
      · rcases h2 with rfl | h2
        · exact Or.inr (List.mem_cons_self _ _)
        · exact Or.inr (List.mem_cons_of_mem _ h2)
      · exact le_trans h3 (le_of_lt hlt)
      · intro q hq
        rcases List.mem_cons.mp hq with rfl | hq
        · exact h3
        · exact h4 q hq
    · obtain ⟨ch, h1, h2, h3, h4⟩ := ih hrest c
      refine ⟨ch, ?_, ?_, h3, ?_⟩
      · rw [hstep, if_neg hlt]; exact h1
      · rcases h2 with rfl | h2
        · exact Or.inl rfl
        · exact Or.inr (List.mem_cons_of_mem _ h2)
      · intro q hq
        rcases List.mem_cons.mp hq with rfl | hq
        · exact le_trans h3 (by omega)
        · exact h4 q hq

theorem chooseLowestBpm_spec (l : List SessionRow) (hpos : ∀ r ∈ l, 0 < r.bpm)
    (hne : l ≠ []) :
    ∃ ch, chooseLowestBpm l = some ch ∧ ch ∈ l ∧ ∀ r ∈ l, ch.bpm ≤ r.bpm := by
  cases l with
  | nil => exact absurd rfl hne
  | cons r rest =>
    rw [chooseLowestBpm_def, List.foldl_cons]
    have hr : 0 < r.bpm := hpos r (List.mem_cons_self r rest)
    have hstep : chooseStep Option.none r = some r := by
      unfold chooseStep
      rw [if_neg (by omega)]
    rw [hstep]
    obtain ⟨ch, h1, h2, h3, h4⟩ :=
      chooseStep_foldl_aux rest (fun q hq => hpos q (List.mem_cons_of_mem r hq)) r
    refine ⟨ch, h1, ?_, ?_⟩
    · rcases h2 with rfl | h2
      · exact List.mem_cons_self _ _
      · exact List.mem_cons_of_mem _ h2
    · intro q hq
      rcases List.mem_cons.mp hq with rfl | hq
      · exact h3
      · exact h4 q hq

/-! ### Generic helpers for filterMap manipulations -/

theorem filterMap_congr_local {α β : Type} {f g : α → Option β} :
    ∀ {l : List α}, (∀ x ∈ l, f x = g x) → l.filterMap f = l.filterMap g := by
  intro l
  induction l with
  | nil => intro _; rfl
  | cons x xs ih =>
    intro h
    rw [List.filterMap_cons, List.filterMap_cons, h x (List.mem_cons_self x xs),
      ih (fun y hy => h y (List.mem_cons_of_mem x hy))]

theorem achieved_pairs_map_snd (bars : List Int) (f : Int → Option Int) :
    (bars.filterMap (fun n => (f n).map (fun v => (n, v)))).map Prod.snd =
      bars.filterMap f := by
  induction bars with
  | nil => rfl
  | cons n rest ih =>
    rw [List.filterMap_cons, List.filterMap_cons]
    cases hf : f n with
    | none => simpa using ih
    | some v => simpa using ih

theorem mem_achieved_pairs {bars : List Int} {f : Int → Option Int} {n v : Int} :
    (n, v) ∈ bars.filterMap (fun m => (f m).map (fun w => (m, w))) ↔
      n ∈ bars ∧ f n = some v := by
  simp only [List.mem_filterMap, Option.map_eq_some', Prod.mk.injEq]
  constructor
  · rintro ⟨m, hm, w, hw, rfl, rfl⟩
    exact ⟨hm, hw⟩
  · rintro ⟨hn, hv⟩
    exact ⟨n, hn, v, hv, rfl, rfl⟩

theorem filterMap_ts_pair :
    ∀ (l : List SessionRow), (∀ r ∈ l, (r.timestamp_start).isSome = true) →
    l.filterMap (fun r => r.timestamp_start.map (fun ts => (ts, r))) =
      l.map (fun r => (r.timestamp_start.getD 0, r)) := by
  intro l
  induction l with
  | nil => intro _; rfl
  | cons r rest ih =>
    intro h
    have hr := h r (List.mem_cons_self r rest)
    obtain ⟨t, ht⟩ := Option.isSome_iff_exists.mp hr
    rw [List.filterMap_cons, List.map_cons, ht,
      ih (fun q hq => h q (List.mem_cons_of_mem r hq))]
    simp [ht]

theorem filterMap_ts :
    ∀ (l : List SessionRow), (∀ r ∈ l, (r.timestamp_start).isSome = true) →
    l.filterMap (fun r => r.timestamp_start) =
      l.map (fun r => r.timestamp_start.getD 0) := by
  intro l
  induction l with
  | nil => intro _; rfl
  | cons r rest ih =>
    intro h
    have hr := h r (List.mem_cons_self r rest)
    obtain ⟨t, ht⟩ := Option.isSome_iff_exists.mp hr
    rw [List.filterMap_cons, List.map_cons, ht,
      ih (fun q hq => h q (List.mem_cons_of_mem r hq))]
    simp [ht]

/-! ### Claim-language definitions (from the specification, for comparison
with the code-derived ones above) -/

/-- Spec wording: the record covers bar `n` (after normalisation). -/
def specCoversBar (r : SessionRow) (n : Int) : Prop :=
  min r.bar_start r.bar_end ≤ n ∧ n ≤ max r.bar_start r.bar_end

instance (r : SessionRow) (n : Int) : Decidable (specCoversBar r n) :=
  inferInstanceAs (Decidable (min r.bar_start r.bar_end ≤ n ∧ n ≤ max r.bar_start r.bar_end))

/-- Spec wording: an "achieving" record has `success / reps >= 0.90`. -/
def specAchieving (r : SessionRow) : Prop :=
  SUCCESS_RATE ≤ (r.success : ℚ) / (r.reps : ℚ)

instance (r : SessionRow) : Decidable (specAchieving r) :=
  inferInstanceAs (Decidable (SUCCESS_RATE ≤ (r.success : ℚ) / (r.reps : ℚ)))

/-- Spec wording: the bpms of the song records that cover bar `n` and are
achieving. -/
def specBarBpms (sessions : List SessionRow) (song n : Int) : List Int :=
  (sessions.filter (fun r =>
    (r.song_index == song) && decide (specCoversBar r n) &&
      decide (specAchieving r))).map (fun r => r.bpm)

/-- Spec wording: `achieved[n]`, the per-bar minimum achieving tempo. -/
def specPerBarMin (sessions : List SessionRow) (song n : Int) : Option Int :=
  minList (specBarBpms sessions song n)

/-- Spec wording: the suggested tempo, the minimum of the per-bar minima
over the bars of `[a, b]`. -/
def specSuggested (sessions : List SessionRow) (song a b : Int) : Option Int :=
  minList ((intRange a b).filterMap (fun n => specPerBarMin sessions song n))

/-- Under the data-model invariants (`reps > 0`, `bpm > 0`), the per-bar
filter of the code coincides with the spec-language filter, for bars of
the queried range. -/
theorem rows_filter_eq_spec (sessions : List SessionRow) (song a b n : Int)
    (wf : ∀ r ∈ sessions, 0 < r.reps ∧ 0 < r.bpm)
    (hn1 : a ≤ n) (hn2 : n ≤ b) :
    (overlappingRows sessions song a b).filter (fun r => achievesBar n r) =
      sessions.filter (fun r =>
        (r.song_index == song) && decide (specCoversBar r n) &&
          decide (specAchieving r)) := by
  rw [overlappingRows, List.filter_filter]
  apply List.filter_congr
  intro r hr
  obtain ⟨hreps, hbpm⟩ := wf r hr
  rw [Bool.eq_iff_iff]
  simp only [achievesBar, overlap, specCoversBar, specAchieving, Bool.and_eq_true,
    decide_eq_true_eq, beq_iff_eq]
  constructor
  · rintro ⟨⟨⟨⟨hc, _⟩, _⟩, h5⟩, h6, _⟩
    exact ⟨⟨h6, hc⟩, h5⟩
  · rintro ⟨⟨h6, hc⟩, h5⟩
    refine ⟨⟨⟨⟨hc, hreps⟩, hbpm⟩, h5⟩, h6, ?_⟩
    obtain ⟨hc1, hc2⟩ := hc
    omega

/-- Consequently `bestMinBpm` over the overlapping rows computes the
spec-language `achieved[n]`. -/
theorem bestMinBpm_eq_specPerBarMin (sessions : List SessionRow)
    (song a b n : Int) (wf : ∀ r ∈ sessions, 0 < r.reps ∧ 0 < r.bpm)
    (hn1 : a ≤ n) (hn2 : n ≤ b) :
    bestMinBpm (overlappingRows sessions song a b) n =
      specPerBarMin sessions song n := by
  rw [bestMinBpm_eq_minList, rows_filter_eq_spec sessions song a b n wf hn1 hn2]
  rfl

/-- Branch lemma: with overlapping rows and a non-empty achieved dict,
`_compute_suggestion` returns the achieved-branch dict. -/
theorem computeSuggestion_achieved_eq (sessions : List SessionRow)
    (song a b : Int)
    (h1 : (overlappingRows sessions song a b).isEmpty = false)
    (h2 : (achievedPairs sessions song a b).isEmpty = false) :
    computeSuggestion sessions song a b =
      { kind := SuggKind.achieved
        suggested_bpm_value := minList ((achievedPairs sessions song a b).map Prod.snd)
        bottlenecks := ((achievedPairs sessions song a b).filter (fun p =>
          some p.2 == minList ((achievedPairs sessions song a b).map Prod.snd))).map
          Prod.fst
        missing := (intRange a b).filter
          (fun bar => (bestMinBpm (overlappingRows sessions song a b) bar).isNone)
        latest_acc := Option.none
        latest_ts := Option.none } := by
  simp only [computeSuggestion, h1, h2, Bool.false_eq_true, if_false]

/-- Branch lemma: with overlapping rows, an empty achieved dict, and a
chosen fallback record, `_compute_suggestion` returns the latest-branch
dict. -/
theorem computeSuggestion_latest_eq (sessions : List SessionRow)
    (song a b : Int) (ch : SessionRow)
    (h1 : (overlappingRows sessions song a b).isEmpty = false)
    (h2 : (achievedPairs sessions song a b).isEmpty = true)
    (h3 : chooseLowestBpm (latestGroup sessions song a b) = some ch) :
    computeSuggestion sessions song a b =
      { kind := SuggKind.latest
        suggested_bpm_value := some ch.bpm
        bottlenecks := []
        missing := []
        latest_acc := some (if 0 < ch.reps then (ch.success : ℚ) / (ch.reps : ℚ) else 0)
        latest_ts := ch.timestamp_start } := by
  simp only [computeSuggestion, h1, h2, Bool.false_eq_true, if_false, if_true, h3]

/-- Branch lemma: with no overlapping rows, `_compute_suggestion` reports
kind `none` with no suggested tempo. -/
theorem computeSuggestion_empty_eq (sessions : List SessionRow)
    (song a b : Int)
    (h1 : (overlappingRows sessions song a b).isEmpty = true) :
    computeSuggestion sessions song a b =
      { kind := SuggKind.nothing
        suggested_bpm_value := Option.none
        bottlenecks := []
        missing := []
        latest_acc := Option.none
        latest_ts := Option.none } := by
  simp only [computeSuggestion, h1, if_true]

/-- Link between an empty per-bar minimum and the absence of an achieving
covering record (spec language). -/
theorem specPerBarMin_eq_none_iff (sessions : List SessionRow) (song n : Int) :
    specPerBarMin sessions song n = Option.none ↔
      ¬ ∃ r ∈ sessions, r.song_index = song ∧ specCoversBar r n ∧
        specAchieving r := by
  rw [specPerBarMin, minList_eq_none, specBarBpms, List.map_eq_nil_iff,
    List.filter_eq_nil_iff]
  constructor
  · intro hall
    rintro ⟨r, hrmem, hsong, hcov, hach⟩
    refine hall r hrmem ?_
    simp only [Bool.and_eq_true, beq_iff_eq, decide_eq_true_eq]
    exact ⟨⟨hsong, hcov⟩, hach⟩
  · intro hnex r hrmem hpred
    simp only [Bool.and_eq_true, beq_iff_eq, decide_eq_true_eq] at hpred
    exact hnex ⟨r, hrmem, hpred.1.1, hpred.1.2, hpred.2⟩

/-- C1: with `1 ≤ a ≤ b` and well-formed records, if some bar of `[a, b]`
is covered by an achieving record of the song, `_compute_suggestion`
returns kind `achieved`; the suggested tempo is the minimum over the bars
of `[a, b]` of the per-bar minimum achieving tempo; the bottleneck bars
are exactly the bars attaining that minimum; and the gap bars are exactly
the bars of `[a, b]` with no achieving covering record. -/
theorem suggest_achieved_correct (sessions : List SessionRow) (song a b : Int)
    (ha : 1 ≤ a) (hab : a ≤ b)
    (wf : ∀ r ∈ sessions, 0 < r.reps ∧ 0 < r.bpm)
    (hex : ∃ n, a ≤ n ∧ n ≤ b ∧ ∃ r ∈ sessions,
      r.song_index = song ∧ specCoversBar r n ∧ specAchieving r) :
    (computeSuggestion sessions song a b).kind = SuggKind.achieved ∧
    (computeSuggestion sessions song a b).suggested_bpm_value =
      specSuggested sessions song a b ∧
    specSuggested sessions song a b ≠ Option.none ∧
    (∀ n, n ∈ (computeSuggestion sessions song a b).bottlenecks ↔
      a ≤ n ∧ n ≤ b ∧
        specPerBarMin sessions song n = specSuggested sessions song a b) ∧
    (∀ n, n ∈ (computeSuggestion sessions song a b).missing ↔
      a ≤ n ∧ n ≤ b ∧ ¬ ∃ r ∈ sessions,
        r.song_index = song ∧ specCoversBar r n ∧ specAchieving r) := by
  obtain ⟨n0, hn0a, hn0b, r0, hr0mem, hr0song, hr0cov, hr0ach⟩ := hex
  have hr0rows : r0 ∈ overlappingRows sessions song a b := by
    rw [overlappingRows, List.mem_filter]
    refine ⟨hr0mem, ?_⟩
    simp only [Bool.and_eq_true, beq_iff_eq, overlap, decide_eq_true_eq]
    obtain ⟨hc1, hc2⟩ := hr0cov
    exact ⟨hr0song, by omega⟩
  have h1 : (overlappingRows sessions song a b).isEmpty = false :=
    List.isEmpty_eq_false.mpr (List.ne_nil_of_mem hr0rows)
  have hbarsmin : ∀ n ∈ intRange a b,
      bestMinBpm (overlappingRows sessions song a b) n =
        specPerBarMin sessions song n := by
    intro n hn
    obtain ⟨h1n, h2n⟩ := mem_intRange.mp hn
    exact bestMinBpm_eq_specPerBarMin sessions song a b n wf h1n h2n
  have hr0filter : r0 ∈ sessions.filter (fun r =>
      (r.song_index == song) && decide (specCoversBar r n0) &&
        decide (specAchieving r)) := by
    rw [List.mem_filter]
    refine ⟨hr0mem, ?_⟩
    simp only [Bool.and_eq_true, beq_iff_eq, decide_eq_true_eq]
    exact ⟨⟨hr0song, hr0cov⟩, hr0ach⟩
  have hbpms_ne : specBarBpms sessions song n0 ≠ [] := by
    rw [specBarBpms]
    exact List.ne_nil_of_mem (List.mem_map_of_mem _ hr0filter)
  obtain ⟨v0, hv0⟩ : ∃ v0, specPerBarMin sessions song n0 = some v0 := by
    rw [specPerBarMin]
    cases hm : minList (specBarBpms sessions song n0) with
    | none => exact absurd (minList_eq_none.mp hm) hbpms_ne
    | some v => exact ⟨v, rfl⟩
  have hn0bars : n0 ∈ intRange a b := mem_intRange.mpr ⟨hn0a, hn0b⟩
  have hpair : (n0, v0) ∈ achievedPairs sessions song a b := by
    rw [achievedPairs]
    refine mem_achieved_pairs.mpr ⟨hn0bars, ?_⟩
    rw [hbarsmin n0 hn0bars]
    exact hv0
  have h2 : (achievedPairs sessions song a b).isEmpty = false :=
    List.isEmpty_eq_false.mpr (List.ne_nil_of_mem hpair)
  have hsnd : (achievedPairs sessions song a b).map Prod.snd =
      (intRange a b).filterMap (fun n => specPerBarMin sessions song n) := by
    rw [achievedPairs, achieved_pairs_map_snd]
    exact filterMap_congr_local hbarsmin
  have hsmin : minList ((achievedPairs sessions song a b).map Prod.snd) =
      specSuggested sessions song a b := by
    rw [hsnd]
    rfl
  have hsug_ne : specSuggested sessions song a b ≠ Option.none := by
    rw [specSuggested]
    intro hcontra
    have hall := List.filterMap_eq_nil_iff.mp (minList_eq_none.mp hcontra)
    have hx := hall n0 hn0bars
    rw [hv0] at hx
    exact Option.noConfusion hx
  have hbot : ∀ n,
      n ∈ ((achievedPairs sessions song a b).filter (fun p =>
        some p.2 == minList ((achievedPairs sessions song a b).map Prod.snd))).map
        Prod.fst ↔
      (n ∈ intRange a b ∧ bestMinBpm (overlappingRows sessions song a b) n =
        specSuggested sessions song a b) := by
    intro n
    rw [List.mem_map]
    constructor
    · rintro ⟨⟨pn, pv⟩, hp, rfl⟩
      rw [List.mem_filter] at hp
      obtain ⟨hpmem, hpeq⟩ := hp
      rw [achievedPairs] at hpmem
      have hpair2 := mem_achieved_pairs.mp hpmem
      simp only [beq_iff_eq] at hpeq
      rw [hsmin] at hpeq
      refine ⟨hpair2.1, ?_⟩
      rw [hpair2.2, hpeq]
    · rintro ⟨hnb, hbm⟩
      cases hms : specSuggested sessions song a b with
      | none => exact absurd hms hsug_ne
      | some m =>
        rw [hms] at hbm
        refine ⟨(n, m), ?_, rfl⟩
        rw [List.mem_filter]
        constructor
        · rw [achievedPairs]
          exact mem_achieved_pairs.mpr ⟨hnb, hbm⟩
        · simp only [beq_iff_eq]
          rw [hsmin, hms]
  rw [computeSuggestion_achieved_eq sessions song a b h1 h2]
  refine ⟨rfl, hsmin, hsug_ne, ?_, ?_⟩
  · intro n
    constructor
    · intro hmem
      obtain ⟨hnb, hbm⟩ := (hbot n).mp hmem
      obtain ⟨h1n, h2n⟩ := mem_intRange.mp hnb
      refine ⟨h1n, h2n, ?_⟩
      rw [← hbarsmin n hnb]
      exact hbm
    · rintro ⟨h1n, h2n, hpm⟩
      have hnb := mem_intRange.mpr ⟨h1n, h2n⟩
      refine (hbot n).mpr ⟨hnb, ?_⟩
      rw [hbarsmin n hnb]
      exact hpm
  · intro n
    rw [List.mem_filter]
    constructor
    · rintro ⟨hnb, hnone⟩
      obtain ⟨h1n, h2n⟩ := mem_intRange.mp hnb
      refine ⟨h1n, h2n, ?_⟩
      rw [← specPerBarMin_eq_none_iff sessions song n, ← hbarsmin n hnb]
      exact Option.isNone_iff_eq_none.mp hnone
    · rintro ⟨h1n, h2n, hnex⟩
      have hnb := mem_intRange.mpr ⟨h1n, h2n⟩
      refine ⟨hnb, ?_⟩
      rw [Option.isNone_iff_eq_none, hbarsmin n hnb,
        specPerBarMin_eq_none_iff sessions song n]
      exact hnex

/-- Demo record: bars 1-8, tempo 100, reps 10, success 9. -/
def rAch1 : SessionRow :=
  { session_id := 1, timestamp_start := some 1, timestamp_end := 1,
    duration_sec := 0, song_index := 7, song_name := 0, bar_start := 1,
    bar_end := 8, bpm := 100, reps := 10, success := 9, note := 0 }

/-- Demo record: bars 1-8, tempo 120, reps 10, success 10. -/
def rAch2 : SessionRow :=
  { session_id := 2, timestamp_start := some 2, timestamp_end := 2,
    duration_sec := 0, song_index := 7, song_name := 0, bar_start := 1,
    bar_end := 8, bpm := 120, reps := 10, success := 10, note := 0 }

/-- The demo log of the achieved-branch example. -/
def demoAchieved : List SessionRow := [rAch1, rAch2]

/-- C1 witness: on the two demo records, `suggest(song, 1, 8)` lands in
the achieved branch with tempo 100 (the lower achieving tempo wins). -/
theorem suggest_achieved_correct_witness :
    (1 : Int) ≤ 1 ∧ (1 : Int) ≤ 8 ∧
    (computeSuggestion demoAchieved 7 1 8).kind = SuggKind.achieved ∧
    (computeSuggestion demoAchieved 7 1 8).suggested_bpm_value =
      specSuggested demoAchieved 7 1 8 ∧
    specSuggested demoAchieved 7 1 8 = some 100 := by
  have hwf : ∀ r ∈ demoAchieved, 0 < r.reps ∧ 0 < r.bpm := by
    intro r hr
    rcases (by simpa [demoAchieved] using hr : r = rAch1 ∨ r = rAch2) with rfl | rfl <;>
      norm_num [rAch1, rAch2]
  have hex : ∃ n, (1 : Int) ≤ n ∧ n ≤ 8 ∧ ∃ r ∈ demoAchieved,
      r.song_index = 7 ∧ specCoversBar r n ∧ specAchieving r := by
    refine ⟨1, by norm_num, by norm_num, rAch1, by simp [demoAchieved], rfl, ?_, ?_⟩
    · norm_num [specCoversBar, rAch1]
    · norm_num [specAchieving, SUCCESS_RATE, rAch1]
  have h := suggest_achieved_correct demoAchieved 7 1 8 (by norm_num) (by norm_num)
    hwf hex
  refine ⟨by norm_num, by norm_num, h.1, h.2.1, ?_⟩
  norm_num [specSuggested, specPerBarMin, specBarBpms, specCoversBar, specAchieving,
    SUCCESS_RATE, intRange, minList, demoAchieved, rAch1, rAch2, List.range,
    List.filter, List.filterMap]

/-- The none-result dict of `_compute_suggestion`. -/
def noneSuggestion : Suggestion :=
  { kind := SuggKind.nothing
    suggested_bpm_value := Option.none
    bottlenecks := []
    missing := []
    latest_acc := Option.none
    latest_ts := Option.none }

/-- C8: `suggest` considers exactly the records of the song whose
normalised bar interval satisfies `max(a, bar_start) <= min(b, bar_end)`;
`[1,8]` and `[5,10]` overlap while `[1,4]` and `[5,10]` do not; and with
no overlapping record the result has kind `none` and no suggested tempo. -/
theorem suggest_overlap_filter (sessions : List SessionRow) (song a b : Int)
    (r : SessionRow) :
    (r ∈ overlappingRows sessions song a b ↔
      r ∈ sessions ∧ r.song_index = song ∧
        max a (min r.bar_start r.bar_end) ≤ min b (max r.bar_start r.bar_end)) ∧
    (overlappingRows sessions song a b = [] →
      computeSuggestion sessions song a b = noneSuggestion) ∧
    overlap 1 8 5 10 = true ∧ overlap 1 4 5 10 = false := by
  refine ⟨?_, ?_, by decide, by decide⟩
  · rw [overlappingRows, List.mem_filter]
    simp only [Bool.and_eq_true, beq_iff_eq, overlap, decide_eq_true_eq, and_assoc]
  · intro h
    exact computeSuggestion_empty_eq sessions song a b (List.isEmpty_iff.mpr h)

/-- C8 witness: on the empty log the result is the none dict, and the
overlap examples evaluate as claimed. -/
theorem suggest_overlap_filter_witness :
    computeSuggestion [] 7 1 8 = noneSuggestion ∧
    overlap 1 8 5 10 = true ∧ overlap 1 4 5 10 = false :=
  ⟨(suggest_overlap_filter [] 7 1 8 rAch1).2.1 rfl,
   (suggest_overlap_filter [] 7 1 8 rAch1).2.2.1,
   (suggest_overlap_filter [] 7 1 8 rAch1).2.2.2⟩

/-- Membership in the overlapping rows implies membership in the log. -/
theorem mem_overlappingRows_sub {sessions : List SessionRow} {song a b : Int}
    {r : SessionRow} (h : r ∈ overlappingRows sessions song a b) :
    r ∈ sessions :=
  (List.mem_filter.mp h).1

/-- Spec wording: the overlapping records whose `timestamp_start` is the
most recent (all ties included). -/
def specLatestGroup (sessions : List SessionRow) (song a b : Int) :
    List SessionRow :=
  (overlappingRows sessions song a b).filter (fun r =>
    r.timestamp_start ==
      maxList ((overlappingRows sessions song a b).filterMap
        (fun q => q.timestamp_start)))

/-- With parseable timestamps, the code latest group is the spec latest
group. -/
theorem latestGroup_eq_spec (sessions : List SessionRow) (song a b : Int)
    (hts : ∀ r ∈ overlappingRows sessions song a b,
      (r.timestamp_start).isSome = true) :
    latestGroup sessions song a b = specLatestGroup sessions song a b := by
  unfold latestGroup latestParsed specLatestGroup
  dsimp only
  rw [filterMap_ts_pair _ hts, filterMap_ts _ hts]
  by_cases hnil : overlappingRows sessions song a b = []
  · simp [hnil]
  · have hemp : ((overlappingRows sessions song a b).map
        (fun r => (r.timestamp_start.getD 0, r))).isEmpty = false := by
      rw [List.isEmpty_eq_false]
      simp [List.map_eq_nil_iff, hnil]
    simp only [hemp, Bool.false_eq_true, if_false, List.map_map, List.filter_map]
    have hsnd2 : (Prod.snd ∘ fun r : SessionRow => (r.timestamp_start.getD 0, r)) =
        fun r => r := rfl
    have hfst2 : (Prod.fst ∘ fun r : SessionRow => (r.timestamp_start.getD 0, r)) =
        fun r : SessionRow => r.timestamp_start.getD 0 := rfl
    rw [hsnd2, hfst2, List.map_id']
    apply List.filter_congr
    intro r hr
    obtain ⟨t, ht⟩ := Option.isSome_iff_exists.mp (hts r hr)
    show (some (r.timestamp_start.getD 0) ==
      maxList ((overlappingRows sessions song a b).map
        (fun q => q.timestamp_start.getD 0))) =
      (r.timestamp_start == maxList ((overlappingRows sessions song a b).map
        (fun q => q.timestamp_start.getD 0)))
    rw [ht]
    rfl

/-- C4: with well-formed records, at least one overlapping record, and no
achieving record covering any bar of `[a, b]`, `_compute_suggestion`
returns kind `latest`; the suggested tempo is that of a record of the
most-recent group with the lowest tempo in that group (positive), and its
success ratio and timestamp are reported. -/
theorem suggest_latest_fallback (sessions : List SessionRow) (song a b : Int)
    (hab : a ≤ b)
    (wf : ∀ r ∈ sessions,
      0 < r.reps ∧ 0 < r.bpm ∧ (r.timestamp_start).isSome = true)
    (hne : overlappingRows sessions song a b ≠ [])
    (hnoach : ∀ n, a ≤ n → n ≤ b → ∀ r ∈ sessions, r.song_index = song →
      specCoversBar r n → ¬ specAchieving r) :
    ∃ ch, ch ∈ specLatestGroup sessions song a b ∧
      (∀ r ∈ specLatestGroup sessions song a b, ch.bpm ≤ r.bpm) ∧
      0 < ch.bpm ∧
      (computeSuggestion sessions song a b).kind = SuggKind.latest ∧
      (computeSuggestion sessions song a b).suggested_bpm_value = some ch.bpm ∧
      (computeSuggestion sessions song a b).latest_acc =
        some ((ch.success : ℚ) / (ch.reps : ℚ)) ∧
      (computeSuggestion sessions song a b).latest_ts = ch.timestamp_start := by
  have wf2 : ∀ r ∈ sessions, 0 < r.reps ∧ 0 < r.bpm :=
    fun r hr => ⟨(wf r hr).1, (wf r hr).2.1⟩
  have h1 : (overlappingRows sessions song a b).isEmpty = false :=
    List.isEmpty_eq_false.mpr hne
  have h2 : (achievedPairs sessions song a b).isEmpty = true := by
    rw [List.isEmpty_iff, achievedPairs, List.filterMap_eq_nil_iff]
    intro n hn
    obtain ⟨h1n, h2n⟩ := mem_intRange.mp hn
    rw [bestMinBpm_eq_specPerBarMin sessions song a b n wf2 h1n h2n,
      Option.map_eq_none', specPerBarMin_eq_none_iff]
    rintro ⟨r, hrmem, hsong, hcov, hach⟩
    exact hnoach n h1n h2n r hrmem hsong hcov hach
  have hts : ∀ r ∈ overlappingRows sessions song a b,
      (r.timestamp_start).isSome = true :=
    fun r hr => (wf r (mem_overlappingRows_sub hr)).2.2
  have hgroup := latestGroup_eq_spec sessions song a b hts
  have hmapne : (overlappingRows sessions song a b).filterMap
      (fun q => q.timestamp_start) ≠ [] := by
    rw [filterMap_ts _ hts]
    simp [List.map_eq_nil_iff, hne]
  obtain ⟨M, hM⟩ : ∃ M, maxList ((overlappingRows sessions song a b).filterMap
      (fun q => q.timestamp_start)) = some M := by
    cases hm : maxList ((overlappingRows sessions song a b).filterMap
        (fun q => q.timestamp_start)) with
    | none => exact absurd (maxList_eq_none.mp hm) hmapne
    | some M => exact ⟨M, rfl⟩
  obtain ⟨hMmem, _⟩ := maxList_mem_ge hM
  obtain ⟨rM, hrMmem, hrMts⟩ := List.mem_filterMap.mp hMmem
  have hgrpne : specLatestGroup sessions song a b ≠ [] := by
    apply List.ne_nil_of_mem (a := rM)
    rw [specLatestGroup, List.mem_filter]
    refine ⟨hrMmem, ?_⟩
    rw [hM, hrMts]
    simp
  have hpos_grp : ∀ r ∈ specLatestGroup sessions song a b, 0 < r.bpm := by
    intro r hr
    rw [specLatestGroup] at hr
    exact (wf r (mem_overlappingRows_sub (List.mem_filter.mp hr).1)).2.1
  obtain ⟨ch, hcheq, hchmem, hchmin⟩ :=
    chooseLowestBpm_spec (specLatestGroup sessions song a b) hpos_grp hgrpne
  have hchsess : ch ∈ sessions := by
    have := hchmem
    rw [specLatestGroup] at this
    exact mem_overlappingRows_sub (List.mem_filter.mp this).1
  have hchreps : 0 < ch.reps := (wf ch hchsess).1
  have hcheq2 : chooseLowestBpm (latestGroup sessions song a b) = some ch := by
    rw [hgroup]
    exact hcheq
  rw [computeSuggestion_latest_eq sessions song a b ch h1 h2 hcheq2]
  refine ⟨ch, hchmem, hchmin, hpos_grp ch hchmem, rfl, rfl, ?_, rfl⟩
  simp only [if_pos hchreps]

/-- Demo record: bars 1-8, tempo 140, reps 5, success 2. -/
def rLat : SessionRow :=
  { session_id := 3, timestamp_start := some 5, timestamp_end := 5,
    duration_sec := 0, song_index := 7, song_name := 0, bar_start := 1,
    bar_end := 8, bpm := 140, reps := 5, success := 2, note := 0 }

/-- The demo log of the latest-branch example. -/
def demoLatest : List SessionRow := [rLat]

/-- C4 witness: with only the record (bars 1-8, tempo 140, reps 5,
success 2), `suggest(song, 1, 8)` is kind `latest`, tempo 140, success
ratio 2/5. -/
theorem suggest_latest_fallback_witness :
    (∃ ch, ch ∈ specLatestGroup demoLatest 7 1 8 ∧
      (∀ r ∈ specLatestGroup demoLatest 7 1 8, ch.bpm ≤ r.bpm) ∧
      0 < ch.bpm ∧
      (computeSuggestion demoLatest 7 1 8).kind = SuggKind.latest ∧
      (computeSuggestion demoLatest 7 1 8).suggested_bpm_value = some ch.bpm ∧
      (computeSuggestion demoLatest 7 1 8).latest_acc =
        some ((ch.success : ℚ) / (ch.reps : ℚ)) ∧
      (computeSuggestion demoLatest 7 1 8).latest_ts = ch.timestamp_start) ∧
    (computeSuggestion demoLatest 7 1 8).suggested_bpm_value = some 140 ∧
    (computeSuggestion demoLatest 7 1 8).latest_acc = some (2 / 5) := by
  have hwf : ∀ r ∈ demoLatest,
      0 < r.reps ∧ 0 < r.bpm ∧ (r.timestamp_start).isSome = true := by
    intro r hr
    have : r = rLat := by simpa [demoLatest] using hr
    subst this
    norm_num [rLat]
  have hne : overlappingRows demoLatest 7 1 8 ≠ [] := by
    norm_num [overlappingRows, overlap, demoLatest, rLat, List.filter]
  have hnoach : ∀ n, (1 : Int) ≤ n → n ≤ 8 → ∀ r ∈ demoLatest,
      r.song_index = 7 → specCoversBar r n → ¬ specAchieving r := by
    intro n _ _ r hr _ _ hach
    have : r = rLat := by simpa [demoLatest] using hr
    subst this
    norm_num [specAchieving, SUCCESS_RATE, rLat] at hach
  refine ⟨suggest_latest_fallback demoLatest 7 1 8 (by norm_num) hwf hne hnoach,
    ?_, ?_⟩
  · norm_num [computeSuggestion, overlappingRows, overlap, demoLatest, rLat,
      achievedPairs, bestMinBpm, achievesBar, SUCCESS_RATE, intRange, minList,
      maxList, latestGroup, latestParsed, chooseLowestBpm, List.filter,
      List.filterMap, List.range, List.foldl]
  · norm_num [computeSuggestion, overlappingRows, overlap, demoLatest, rLat,
      achievedPairs, bestMinBpm, achievesBar, SUCCESS_RATE, intRange, minList,
      maxList, latestGroup, latestParsed, chooseLowestBpm, List.filter,
      List.filterMap, List.range, List.foldl]

/-! ### Claims about the metronome scheduler -/

/-- C2: in every iteration where a beat fires, the deadline advances by
exactly one beat interval (`60 / tempo` seconds) added to the previous
deadline and is never recomputed from the sampled clock; over any run the
final deadline is the initial one plus (number of fired beats) times the
interval; and any beat-time sequence within a fixed slack of those
deadlines has absolute error bounded by that slack, independent of the
beat index. -/
theorem metronome_no_drift (bpm beats : Int) (hb1 : 1 ≤ bpm) (hb2 : bpm ≤ 400) :
    (∀ (now : ℚ) (s : LoopState), (loopIter bpm beats now s).2 = true →
      (loopIter bpm beats now s).1.next_t = s.next_t + 60 / (bpm : ℚ)) ∧
    (∀ (now : ℚ) (s : LoopState), (loopIter bpm beats now s).2 = false →
      (loopIter bpm beats now s).1 = s) ∧
    (∀ (nows : List ℚ) (s : LoopState),
      (loopRun bpm beats nows s).1.next_t =
        s.next_t + ((loopRun bpm beats nows s).2 : ℚ) * (60 / (bpm : ℚ))) ∧
    (∀ (f : ℕ → ℚ) (t0 slack : ℚ),
      (∀ n : ℕ, t0 + (n : ℚ) * (60 / (bpm : ℚ)) ≤ f n ∧
        f n ≤ t0 + (n : ℚ) * (60 / (bpm : ℚ)) + slack) →
      ∀ n : ℕ, |f n - (t0 + (n : ℚ) * (60 / (bpm : ℚ)))| ≤ slack) := by
  have hmax : (max 1 bpm : Int) = bpm := by omega
  have hint : beatInterval bpm = 60 / (bpm : ℚ) := by
    rw [beatInterval, hmax]
  refine ⟨?_, ?_, ?_, ?_⟩
  · intro now s hfire
    rw [loopIter] at hfire ⊢
    by_cases hlt : now < s.next_t
    · rw [if_pos hlt] at hfire
      exact absurd hfire (by simp)
    · rw [if_neg hlt]
      exact hint ▸ rfl
  · intro now s hfire
    rw [loopIter] at hfire ⊢
    by_cases hlt : now < s.next_t
    · rw [if_pos hlt]
    · rw [if_neg hlt] at hfire
      exact absurd hfire (by simp)
  · intro nows
    induction nows with
    | nil =>
      intro s
      simp [loopRun]
    | cons now rest ih =>
      intro s
      rw [loopRun]
      dsimp only
      by_cases hlt : now < s.next_t
      · have h1 : loopIter bpm beats now s = (s, false) := by
          rw [loopIter, if_pos hlt]
        rw [h1]
        dsimp only
        rw [ih s]
        norm_num
      · have h1 : loopIter bpm beats now s =
            ({ beat := (s.beat + 1) % beats,
               next_t := s.next_t + beatInterval bpm }, true) := by
          rw [loopIter, if_neg hlt]
        rw [h1]
        dsimp only
        rw [ih, hint]
        simp only [eq_self_iff_true, if_true]
        push_cast
        ring
  · intro f t0 slack hf n
    obtain ⟨hlo, hhi⟩ := hf n
    rw [abs_le]
    constructor <;> linarith

/-- C2 witness: at tempo 120 over four clock samples, three beats fire
and the final deadline is the initial one plus three half-second
intervals. -/
theorem metronome_no_drift_witness :
    (1 : Int) ≤ 120 ∧ (120 : Int) ≤ 400 ∧
    (loopRun 120 4 [0, 1/4, 1/2, 1] { beat := 0, next_t := 0 }).2 = 3 ∧
    (loopRun 120 4 [0, 1/4, 1/2, 1] { beat := 0, next_t := 0 }).1.next_t =
      (0 : ℚ) +
        (((loopRun 120 4 [0, 1/4, 1/2, 1] { beat := 0, next_t := 0 }).2 : ℕ) : ℚ) *
          (60 / (120 : ℚ)) := by
  refine ⟨by norm_num, by norm_num, ?_, ?_⟩
  · norm_num [loopRun, loopIter, beatInterval]
  · exact (metronome_no_drift 120 4 (by norm_num) (by norm_num)).2.2.1
      [0, 1/4, 1/2, 1] { beat := 0, next_t := 0 }

/-- A metronome whose cadence thread is running at bpm 120, 4/4. -/
def runningMetro : MetroState :=
  { bpm := 120, beats_per_bar := 4, running := true, stopRequested := false }

/-- C3 counterexample: calling `start(200, 3)` on a running metronome is
not a no-op — it changes the active tempo and meter (because `start`
applies `update` before the is-running check). -/
theorem start_on_running_changes_params_cex :
    runningMetro.running = true ∧
    runningMetro.bpm = 120 ∧ runningMetro.beats_per_bar = 4 ∧
    (metroStart runningMetro 200 3).bpm = 200 ∧
    (metroStart runningMetro 200 3).beats_per_bar = 3 ∧
    (metroStart runningMetro 200 3).bpm ≠ runningMetro.bpm ∧
    (metroStart runningMetro 200 3).beats_per_bar ≠ runningMetro.beats_per_bar := by
  refine ⟨rfl, rfl, rfl, ?_, ?_, ?_, ?_⟩ <;> decide

/-- C3 amended: calling `start` on a running scheduler does not spawn a
new cadence loop — the resulting state is exactly that of `update`, so
the running flag and stop flag are untouched — but the active tempo and
beats-per-bar are set to the clamped arguments. -/
theorem start_on_running_is_update (s : MetroState) (bpm beats : Int)
    (h : s.running = true) :
    metroStart s bpm beats = metroUpdate s bpm beats ∧
    (metroStart s bpm beats).running = true ∧
    (metroStart s bpm beats).stopRequested = s.stopRequested := by
  have hrun : (metroUpdate s bpm beats).running = true := h
  have hstart : metroStart s bpm beats = metroUpdate s bpm beats := by
    rw [metroStart]
    rw [if_pos hrun]
  refine ⟨hstart, ?_, ?_⟩
  · rw [hstart]
    exact hrun
  · rw [hstart]
    rfl

/-- C3 amended witness. -/
theorem start_on_running_is_update_witness :
    runningMetro.running = true ∧
    metroStart runningMetro 200 3 = metroUpdate runningMetro 200 3 :=
  ⟨rfl, (start_on_running_is_update runningMetro 200 3 rfl).1⟩

/-- C10: after any `update` — and after any `start`, which applies
`update` first — the stored tempo lies in `[1, 400]` and the stored
beats-per-bar lies in `[1, 32]`: out-of-range arguments are clamped, not
rejected. -/
theorem update_clamps_params (s : MetroState) (bpm beats : Int) :
    (1 ≤ (metroUpdate s bpm beats).bpm ∧ (metroUpdate s bpm beats).bpm ≤ 400 ∧
     1 ≤ (metroUpdate s bpm beats).beats_per_bar ∧
       (metroUpdate s bpm beats).beats_per_bar ≤ 32) ∧
    (1 ≤ (metroStart s bpm beats).bpm ∧ (metroStart s bpm beats).bpm ≤ 400 ∧
     1 ≤ (metroStart s bpm beats).beats_per_bar ∧
       (metroStart s bpm beats).beats_per_bar ≤ 32) := by
  constructor
  · refine ⟨?_, ?_, ?_, ?_⟩ <;> simp [metroUpdate] <;> omega
  · unfold metroStart metroUpdate
    dsimp only
    split <;> refine ⟨?_, ?_, ?_, ?_⟩ <;> dsimp only <;> omega

/-- C9: once the stop flag is set (at iteration `k`), the cadence loop
fires no beat at any iteration at or after `k` — the head-of-loop check
exits first — so after the in-flight iteration (at most one beat, emitted
within one bounded wait) no further beat is emitted; and `stop` is
idempotent and merely sets the flag. -/
theorem stop_halts_cadence (bpm beats : Int) (stopFlag : Nat → Bool)
    (mono : ∀ i j : Nat, i ≤ j → stopFlag i = true → stopFlag j = true)
    (k : Nat) (hk : stopFlag k = true) :
    (∀ (nows : List ℚ) (s : LoopState) (i0 i : Nat),
      i ∈ loopRunStop bpm beats stopFlag i0 nows s → stopFlag i = false ∧ i < k) ∧
    (∀ (now : ℚ) (s : LoopState) (i0 : Nat),
      (loopRunStop bpm beats stopFlag i0 [now] s).length ≤ 1) ∧
    (∀ m : MetroState, metroStop (metroStop m) = metroStop m) ∧
    (∀ m : MetroState, (metroStop m).stopRequested = true) := by
  have hcore : ∀ (nows : List ℚ) (i0 : Nat) (s : LoopState) (i : Nat),
      i ∈ loopRunStop bpm beats stopFlag i0 nows s → stopFlag i = false := by
    intro nows
    induction nows with
    | nil =>
      intro i0 s i hmem
      simp [loopRunStop] at hmem
    | cons now rest ih =>
      intro i0 s i hmem
      rw [loopRunStop] at hmem
      by_cases hflag : stopFlag i0 = true
      · rw [if_pos hflag] at hmem
        simp at hmem
      · rw [if_neg hflag] at hmem
        rw [List.mem_append] at hmem
        rcases hmem with hmem | hmem
        · have : i = i0 := by
            by_cases hfire : (loopIter bpm beats now s).2 = true
            · rw [if_pos hfire] at hmem
              simpa using hmem
            · rw [if_neg hfire] at hmem
              simp at hmem
          subst this
          exact Bool.eq_false_iff.mpr hflag
        · exact ih (i0 + 1) (loopIter bpm beats now s).1 i hmem
  refine ⟨?_, ?_, ?_, ?_⟩
  · intro nows s i0 i hmem
    have hfalse := hcore nows i0 s i hmem
    refine ⟨hfalse, ?_⟩
    by_contra hge
    have hik : k ≤ i := by omega
    rw [mono k i hik hk] at hfalse
    exact Bool.noConfusion hfalse
  · intro now s i0
    rw [loopRunStop]
    by_cases hflag : stopFlag i0 = true
    · rw [if_pos hflag]
      simp
    · rw [if_neg hflag]
      dsimp only
      by_cases hfire : (loopIter bpm beats now s).2 = true
      · rw [if_pos hfire]
        simp [loopRunStop]
      · rw [if_neg hfire]
        simp [loopRunStop]
  · intro m
    rfl
  · intro m
    rfl

/-- C9 witness: with the flag raised from iteration 2 on at tempo 120,
the run fires only iterations before 2, the singleton run emits at most
one beat, and `stop` is idempotent on the demo state. -/
theorem stop_halts_cadence_witness :
    (∀ i : Nat, i ∈ loopRunStop 120 4 (fun i => decide (2 ≤ i)) 0
      [0, 1/2, 1, 3/2] { beat := 0, next_t := 0 } →
        (fun i : Nat => decide (2 ≤ i)) i = false ∧ i < 2) ∧
    (loopRunStop 120 4 (fun i => decide (2 ≤ i)) 0 [(0 : ℚ)]
      { beat := 0, next_t := 0 }).length ≤ 1 ∧
    metroStop (metroStop runningMetro) = metroStop runningMetro := by
  have h := stop_halts_cadence 120 4 (fun i => decide (2 ≤ i))
    (by intro i j hij hi; simp at hi ⊢; omega) 2 (by decide)
  exact ⟨fun i hmem => h.1 [0, 1/2, 1, 3/2] { beat := 0, next_t := 0 } 0 i hmem,
    h.2.1 0 { beat := 0, next_t := 0 } 0, h.2.2.1 runningMetro⟩

/-! ### Claims about the session controller -/

/-- An operation on the counters of an active session. -/
inductive CounterOp where
  | rep (delta : Int)
  | succ (delta : Int)

/-- Apply one counter operation (`add_rep` / `add_success`). -/
def applyCounterOp (op : CounterOp) (s : TrackerState) : TrackerState :=
  match op with
  | CounterOp.rep d => addRep d s
  | CounterOp.succ d => addSuccess d s

/-- Apply a sequence of counter operations. -/
def runCounterOps (ops : List CounterOp) (s : TrackerState) : TrackerState :=
  ops.foldl (fun t op => applyCounterOp op t) s

/-- C7: from any state with `0 ≤ success ≤ reps` (as established by
`start_session`), each `add_rep` / `add_success` call — and hence any
sequence of such calls — preserves `0 ≤ success ≤ reps`; and a success
increment reaching or passing the current reps leaves `success = reps`. -/
theorem counters_clamped (s : TrackerState) (d : Int)
    (hinv : 0 ≤ s.success ∧ s.success ≤ s.reps) :
    (0 ≤ (addRep d s).success ∧ (addRep d s).success ≤ (addRep d s).reps) ∧
    (0 ≤ (addSuccess d s).success ∧
      (addSuccess d s).success ≤ (addSuccess d s).reps) ∧
    (∀ ops : List CounterOp, 0 ≤ (runCounterOps ops s).success ∧
      (runCounterOps ops s).success ≤ (runCounterOps ops s).reps) ∧
    (s.active = true → s.reps ≤ s.success + d →
      (addSuccess d s).success = s.reps) := by
  have hrep : ∀ t : TrackerState, ∀ e : Int,
      0 ≤ t.success ∧ t.success ≤ t.reps →
      0 ≤ (addRep e t).success ∧ (addRep e t).success ≤ (addRep e t).reps := by
    intro t e ht
    unfold addRep
    split
    · exact ht
    · dsimp only
      constructor
      · split <;> omega
      · split <;> omega
  have hsucc : ∀ t : TrackerState, ∀ e : Int,
      0 ≤ t.success ∧ t.success ≤ t.reps →
      0 ≤ (addSuccess e t).success ∧
        (addSuccess e t).success ≤ (addSuccess e t).reps := by
    intro t e ht
    unfold addSuccess
    split
    · exact ht
    · dsimp only
      constructor
      · split <;> omega
      · split <;> omega
  have hrun : ∀ ops : List CounterOp, ∀ t : TrackerState,
      0 ≤ t.success ∧ t.success ≤ t.reps →
      0 ≤ (runCounterOps ops t).success ∧
        (runCounterOps ops t).success ≤ (runCounterOps ops t).reps := by
    intro ops
    induction ops with
    | nil => intro t ht; exact ht
    | cons op rest ih =>
      intro t ht
      have hstep : 0 ≤ (applyCounterOp op t).success ∧
          (applyCounterOp op t).success ≤ (applyCounterOp op t).reps := by
        cases op with
        | rep e => exact hrep t e ht
        | succ e => exact hsucc t e ht
      exact ih (applyCounterOp op t) hstep
  refine ⟨hrep s d hinv, hsucc s d hinv, fun ops => hrun ops s hinv, ?_⟩
  intro hact hge
  unfold addSuccess
  rw [if_neg (by simp [hact])]
  dsimp only
  split <;> omega

/-- A mid-session demo state: active, reps 4, success 3. -/
def activeDemo : TrackerState :=
  { active := true, session_id := some 1, t_start_iso := some 0,
    t_start_epoch := some 0, reps := 4, success := 3,
    locked_bar_start := some 1, locked_bar_end := some 8,
    locked_bpm := some 100, selected_song_index := some 7,
    selected_song_name := 0, note := 0 }

/-- C7 witness: on the demo state, a success increment past reps clamps
to reps, and a concrete operation sequence keeps the invariant. -/
theorem counters_clamped_witness :
    (0 ≤ activeDemo.success ∧ activeDemo.success ≤ activeDemo.reps) ∧
    (addSuccess 5 activeDemo).success = activeDemo.reps ∧
    (0 ≤ (runCounterOps [CounterOp.rep 2, CounterOp.succ 9,
        CounterOp.rep (-4)] activeDemo).success ∧
      (runCounterOps [CounterOp.rep 2, CounterOp.succ 9,
        CounterOp.rep (-4)] activeDemo).success ≤
        (runCounterOps [CounterOp.rep 2, CounterOp.succ 9,
          CounterOp.rep (-4)] activeDemo).reps) := by
  have h := counters_clamped activeDemo 5 (by constructor <;> decide)
  exact ⟨by constructor <;> decide, h.2.2.2 rfl (by decide),
    (counters_clamped activeDemo 5 (by constructor <;> decide)).2.2.1
      [CounterOp.rep 2, CounterOp.succ 9, CounterOp.rep (-4)]⟩

/-- One tracker operation never adds a zero-reps row to the log. -/
theorem trackerStep_log_sub (op : TrackerOp) (st : TrackerState × List SessionRow) :
    ∀ r ∈ (trackerStep op st).2, r ∈ st.2 ∨ 0 < r.reps := by
  intro r hr
  cases op with
  | startOp sid ni ne b1 b2 bpm => exact Or.inl hr
  | repOp d => exact Or.inl hr
  | succOp d => exact Or.inl hr
  | resetOp => exact Or.inl hr
  | cancelOp =>
    rw [trackerStep] at hr
    unfold cancelSession at hr
    split at hr
    · exact Or.inl hr
    · exact Or.inl hr
  | finishOp ni ne ok =>
    rw [trackerStep] at hr
    unfold finishAndSave at hr
    split at hr
    · exact Or.inl hr
    · split at hr
      · exact Or.inl hr
      · dsimp only at hr
        split at hr
        · rw [List.mem_append] at hr
          rcases hr with hr | hr
          · exact Or.inl hr
          · right
            have hrow := List.mem_singleton.mp hr
            subst hrow
            show 0 < st.1.reps
            omega
        · exact Or.inl hr

/-- A sequence of tracker operations never adds a zero-reps row. -/
theorem runOps_log_sub (ops : List TrackerOp) :
    ∀ st : TrackerState × List SessionRow,
      ∀ r ∈ (runOps ops st).2, r ∈ st.2 ∨ 0 < r.reps := by
  induction ops with
  | nil =>
    intro st r hr
    exact Or.inl hr
  | cons op rest ih =>
    intro st r hr
    have heq : runOps (op :: rest) st = runOps rest (trackerStep op st) := rfl
    rw [heq] at hr
    rcases ih (trackerStep op st) r hr with hmem | hpos
    · exact trackerStep_log_sub op st r hmem
    · exact Or.inr hpos

/-- C6: every row any operation sequence appends to the log has
`reps > 0`; finishing an active session with `reps = 0` fails with the
invalid-state outcome and persists nothing; and cancelling never appends
to the log. -/
theorem persisted_reps_positive (ops : List TrackerOp) (s0 : TrackerState)
    (log0 : List SessionRow) (r : SessionRow)
    (hr : r ∈ (runOps ops (s0, log0)).2)
    (s : TrackerState) (log : List SessionRow) (nowIso : Int) (nowEpoch : ℚ)
    (ok : Bool) (hact : s.active = true) (h0 : s.reps = 0) :
    (r ∈ log0 ∨ 0 < r.reps) ∧
    (finishAndSave nowIso nowEpoch ok s log).1 = FinishOutcome.invalidState ∧
    (finishAndSave nowIso nowEpoch ok s log).2.2 = log ∧
    (cancelSession s log).2 = log := by
  refine ⟨runOps_log_sub ops (s0, log0) r hr, ?_, ?_, ?_⟩
  · unfold finishAndSave
    rw [if_neg (by simp [hact]), if_pos (by omega)]
  · unfold finishAndSave
    rw [if_neg (by simp [hact]), if_pos (by omega)]
  · unfold cancelSession
    split <;> rfl

/-- An idle demo state with song 7 selected. -/
def idleDemo : TrackerState :=
  { active := false, session_id := Option.none, t_start_iso := Option.none,
    t_start_epoch := Option.none, reps := 0, success := 0,
    locked_bar_start := Option.none, locked_bar_end := Option.none,
    locked_bpm := Option.none, selected_song_index := some 7,
    selected_song_name := 0, note := 0 }

/-- Demo sequence: start a session, count one rep, finish successfully. -/
def demoOps : List TrackerOp :=
  [TrackerOp.startOp 1 0 0 1 8 100, TrackerOp.repOp 1,
   TrackerOp.finishOp 50 5 true]

/-- The row the demo sequence persists. -/
def demoSavedRow : SessionRow :=
  { session_id := 1, timestamp_start := some 0, timestamp_end := 50,
    duration_sec := roundTo3 ((5 : ℚ) - 0), song_index := 7, song_name := 0,
    bar_start := 1, bar_end := 8, bpm := 100, reps := 1, success := 0,
    note := 0 }

/-- The demo state mid-session with zero reps. -/
def activeZeroDemo : TrackerState :=
  { activeDemo with reps := 0, success := 0 }

/-- C6 witness: the demo sequence persists exactly one row, with
`reps = 1 > 0`; finishing the zero-reps state fails with `invalidState`
and persists nothing; cancelling persists nothing. -/
theorem persisted_reps_positive_witness :
    (demoSavedRow ∈ ([] : List SessionRow) ∨ 0 < demoSavedRow.reps) ∧
    (finishAndSave 9 9 true activeZeroDemo []).1 = FinishOutcome.invalidState ∧
    (finishAndSave 9 9 true activeZeroDemo []).2.2 = ([] : List SessionRow) ∧
    (cancelSession activeZeroDemo []).2 = ([] : List SessionRow) := by
  have hlog : (runOps demoOps (idleDemo, [])).2 = [demoSavedRow] := rfl
  have hr : demoSavedRow ∈ (runOps demoOps (idleDemo, [])).2 := by
    rw [hlog]
    exact List.mem_singleton.mpr rfl
  exact persisted_reps_positive demoOps idleDemo [] demoSavedRow hr
    activeZeroDemo [] 9 9 true rfl rfl

/-- The row computed by the failed finish attempt at epoch 10. -/
def failedRow : SessionRow :=
  { session_id := 1, timestamp_start := some 0, timestamp_end := 100,
    duration_sec := roundTo3 ((10 : ℚ) - 0), song_index := 7, song_name := 0,
    bar_start := 1, bar_end := 8, bpm := 100, reps := 4, success := 3,
    note := 0 }

/-- The row the retry computes and persists at epoch 20. -/
def retryRow : SessionRow :=
  { session_id := 1, timestamp_start := some 0, timestamp_end := 200,
    duration_sec := roundTo3 ((20 : ℚ) - 0), song_index := 7, song_name := 0,
    bar_start := 1, bar_end := 8, bpm := 100, reps := 4, success := 3,
    note := 0 }

/-- C5 counterexample: when the append raises during `finish_and_save`,
the computed row is not retained anywhere — retrying means calling
`finish_and_save` again, which recomputes the record (fresh end timestamp
and duration), so the row eventually persisted differs from the one the
failed call had computed. -/
theorem finish_retry_recomputes_cex :
    (finishAndSave 100 10 false activeDemo []).1 =
      FinishOutcome.persistFailed failedRow ∧
    (finishAndSave 100 10 false activeDemo []).2.1.active = true ∧
    (finishAndSave 100 10 false activeDemo []).2.2 = ([] : List SessionRow) ∧
    (finishAndSave 200 20 true
      (finishAndSave 100 10 false activeDemo []).2.1 []).2.2 = [retryRow] ∧
    failedRow ≠ retryRow := by
  refine ⟨rfl, rfl, rfl, rfl, ?_⟩
  intro h
  have := congrArg SessionRow.timestamp_end h
  norm_num [failedRow, retryRow] at this

/-- C5 amended: when the append fails during `finish_and_save`, the
failure propagates to the caller and nothing is persisted; the session
stays active with its counters (success clamped to reps) and locked
parameters intact, so the caller can call finish again — but that retry
recomputes the record rather than reusing the previously computed one. -/
theorem finish_append_failure_preserves_session (nowIso : Int) (nowEpoch : ℚ)
    (s : TrackerState) (log : List SessionRow)
    (hact : s.active = true) (hreps : 0 < s.reps) :
    (∃ row, (finishAndSave nowIso nowEpoch false s log).1 =
      FinishOutcome.persistFailed row) ∧
    (finishAndSave nowIso nowEpoch false s log).2.2 = log ∧
    (finishAndSave nowIso nowEpoch false s log).2.1 =
      { s with success := min s.success s.reps } ∧
    (finishAndSave nowIso nowEpoch false s log).2.1.active = true := by
  unfold finishAndSave
  rw [if_neg (by simp [hact]), if_neg (by omega)]
  dsimp only
  exact ⟨⟨_, rfl⟩, rfl, rfl, hact⟩

/-- C5 amended witness. -/
theorem finish_append_failure_preserves_session_witness :
    activeDemo.active = true ∧ 0 < activeDemo.reps ∧
    (finishAndSave 100 10 false activeDemo []).2.2 = ([] : List SessionRow) ∧
    (finishAndSave 100 10 false activeDemo []).2.1.active = true := by
  have h := finish_append_failure_preserves_session 100 10 activeDemo []
    rfl (by decide)
  exact ⟨rfl, by decide, h.2.1, h.2.2.2⟩

end SectionPractice
